import Mathlib

/-!
Verification of the hybrid retrieval & ranking pipeline of a RAG backend.

Python strings are modelled as `List Char`; Python floats are modelled as
exact rationals (`ℚ`): every property proved here (clamping, monotonicity,
order comparisons against thresholds) is stated about the exact arithmetic
the code expresses.  Machine `str` operations (`lower`, `strip`, `split`,
`replace`, `join`) are re-implemented structurally below with Python's
semantics.
-/

/-- Code-point level case folding: ASCII `A`-`Z` and the Latin-1 accented
capitals `À`-`Þ` (excluding `×`) map to their lower-case forms by adding 32,
exactly as Python's `str.lower()` does on this repertoire. -/
def lowerNat (n : Nat) : Nat :=
  if (65 ≤ n ∧ n ≤ 90) ∨ (192 ≤ n ∧ n ≤ 222 ∧ n ≠ 215) then n + 32 else n

/-- Python `str.lower()`, character-wise, for the ASCII + Latin-1 repertoire
used by the French word lists. -/
def toLowerChar (c : Char) : Char :=
  Char.ofNat (lowerNat c.toNat)

/-- The whitespace characters recognised by Python's `str.strip()` /
`str.split()` for the ASCII range. -/
def isPySpace (c : Char) : Bool :=
  c = ' ' || c = '\t' || c = '\n' || c = '\r' || c = Char.ofNat 11 || c = Char.ofNat 12

/-- A Python string: a list of characters. -/
abbrev PyStr := List Char

/-- `str.lower()` (character-wise). -/
def pyLower (s : PyStr) : PyStr := s.map toLowerChar

/-- Python `str.strip()` (no argument: strip whitespace from both ends). -/
def pyStrip (s : PyStr) : PyStr :=
  ((s.dropWhile isPySpace).reverse.dropWhile isPySpace).reverse

/-- Python `str.rstrip(chars)`: remove trailing characters belonging to
`chars`. -/
def pyRStrip (chars : List Char) (s : PyStr) : PyStr :=
  (s.reverse.dropWhile (fun c => chars.contains c)).reverse

/-- Python `str.strip(chars)`: remove characters of `chars` from both ends. -/
def pyStripChars (chars : List Char) (s : PyStr) : PyStr :=
  ((s.dropWhile (fun c => chars.contains c)).reverse.dropWhile
    (fun c => chars.contains c)).reverse

/-- Python `pattern in s` (substring containment) for a non-empty pattern. -/
def containsSub (pat : PyStr) (s : PyStr) : Bool :=
  match s with
  | [] => pat.isEmpty
  | _ :: t => pat.isPrefixOf s || containsSub pat t

/-- Worker for `removeAll`; the fuel argument only makes the recursion
structural.  When a (non-empty) occurrence of `pat` is found at the head it
is skipped, otherwise one character is emitted; with fuel `≥ s.length` this
is exactly Python's left-to-right non-overlapping `replace`. -/
def removeAllGo (pat : PyStr) : Nat → PyStr → PyStr
  | 0, s => s
  | fuel + 1, s =>
    if pat.isPrefixOf s ∧ pat ≠ [] then
      removeAllGo pat fuel (s.drop pat.length)
    else
      match s with
      | [] => []
      | c :: t => c :: removeAllGo pat fuel t

/-- Python `s.replace(pat, "")` for a non-empty `pat`: remove all
(non-overlapping, left-to-right) occurrences of `pat`. -/
def removeAll (pat : PyStr) (s : PyStr) : PyStr :=
  removeAllGo pat s.length s

/-- Worker for `pySplit`: accumulate the current word reversed. -/
def pySplitAux : PyStr → PyStr → List PyStr
  | [], acc => if acc.isEmpty then [] else [acc.reverse]
  | c :: t, acc =>
    if isPySpace c then
      if acc.isEmpty then pySplitAux t [] else acc.reverse :: pySplitAux t []
    else pySplitAux t (c :: acc)

/-- Python `str.split()` (no argument): split on runs of whitespace,
discarding empty pieces. -/
def pySplit (s : PyStr) : List PyStr := pySplitAux s []

/-- Python `str.split(sep)` for a one-character separator: keeps empty
pieces (used for `content.split("\n")`). -/
def pySplitOn (sep : Char) (s : PyStr) : List PyStr :=
  match s with
  | [] => [[]]
  | c :: t =>
    if c = sep then [] :: pySplitOn sep t
    else match pySplitOn sep t with
      | [] => [[c]]
      | w :: ws => (c :: w) :: ws

/-- Python `" ".join(tokens)`. -/
def joinSpace (tokens : List PyStr) : PyStr :=
  match tokens with
  | [] => []
  | [w] => w
  | w :: ws => w ++ ' ' :: joinSpace ws

/-!  `packages/ingestion/french_stopwords.py`  -/

/-- `FRENCH_STOPWORDS` from `french_stopwords.py`. -/
def FRENCH_STOPWORDS : List PyStr :=
  [("le").data, ("la").data, ("les").data, ("un").data, ("une").data,
   ("je").data, ("tu").data, ("il").data, ("elle").data, ("nous").data,
   ("vous").data, ("ils").data, ("elles").data,
   ("est").data, ("sont").data, ("peut").data, ("faut").data]

/-- `SEMANTIC_MARKERS` from `french_stopwords.py`. -/
def SEMANTIC_MARKERS : List PyStr :=
  [("de").data, ("du").data, ("des").data, ("d").data,
   ("tous").data, ("toutes").data, ("tout").data, ("toute").data,
   ("plus").data, ("moins").data, ("maximum").data, ("minimum").data,
   ("ne").data, ("pas").data, ("sans").data]

/-- `QUESTION_PATTERNS` from `french_stopwords.py` (order matters). -/
def QUESTION_PATTERNS : List PyStr :=
  [("c'est quoi").data, ("c est quoi").data,
   ("qu'est-ce que c'est").data, ("qu est ce que c est").data,
   ("quelle est").data, ("quel est").data,
   ("quelles sont").data, ("quels sont").data,
   ("quelles").data, ("quels").data,
   ("comment est-ce que").data, ("comment est ce que").data, ("comment").data,
   ("quand est-ce que").data, ("quand est ce que").data, ("quand").data,
   ("où est-ce que").data, ("où est ce que").data, ("où").data,
   ("combien de").data, ("combien d").data, ("combien").data,
   ("pourquoi est-ce que").data, ("pourquoi est ce que").data,
   ("pourquoi").data,
   ("est-ce que").data, ("est ce que").data]

/-!  `packages/core/agent.py` : `reformulate_query`  -/

/-- The punctuation stripped from the end of the whole query
(`.rstrip("?!.")`). -/
def TRAILING_PUNCT : List Char := ['?', '!', '.']

/-- The punctuation stripped from both ends of each token
(`token.strip("'\".,;:!?")`). -/
def TOKEN_PUNCT : List Char := ['\'', '"', '.', ',', ';', ':', '!', '?']

/-- The per-token keep decision of `reformulate_query`: a token is kept iff
its punctuation-stripped form is a semantic marker, or is non-empty and not
a stopword. -/
def keepToken (t : PyStr) : Bool :=
  let ct := pyStripChars TOKEN_PUNCT t
  SEMANTIC_MARKERS.contains ct ||
    (!FRENCH_STOPWORDS.contains ct && !ct.isEmpty)

/-- The normalisation pipeline of `reformulate_query` before the final
empty-result fallback: lower-case, strip, drop trailing `?!.`, remove every
question pattern present (in list order, stripping after each removal),
then keep only the tokens accepted by `keepToken`, joined by single spaces
and stripped. -/
def reformulate_core (query : PyStr) : PyStr :=
  let q0 := pyRStrip TRAILING_PUNCT (pyStrip (pyLower query))
  let q1 := QUESTION_PATTERNS.foldl
    (fun q pat => if containsSub pat q then pyStrip (removeAll pat q) else q) q0
  let tokens := pySplit q1
  let filtered := tokens.filter keepToken
  pyStrip (joinSpace filtered)

/-- `reformulate_query` from `agent.py`: the normalised query, falling back
to the original query when normalisation leaves the empty string. -/
def reformulate_query (query : PyStr) : PyStr :=
  let result := reformulate_core query
  if result.isEmpty then query else result

/-!  `packages/core/tools/search_knowledge_base.py`  -/

/-- Character-level de-accenting: Unicode NFD decomposition followed by
combining-mark removal, restricted to the Latin-1 lower-case letters (the
repertoire of the French corpus; `_normalize_text` lower-cases first, so
only lower-case entries are needed; `æ`, `œ`, `ø` do not decompose and stay
unchanged, as under NFD). -/
def deaccentChar (c : Char) : Char :=
  if c = 'à' ∨ c = 'á' ∨ c = 'â' ∨ c = 'ã' ∨ c = 'ä' ∨ c = 'å' then 'a'
  else if c = 'ç' then 'c'
  else if c = 'è' ∨ c = 'é' ∨ c = 'ê' ∨ c = 'ë' then 'e'
  else if c = 'ì' ∨ c = 'í' ∨ c = 'î' ∨ c = 'ï' then 'i'
  else if c = 'ñ' then 'n'
  else if c = 'ò' ∨ c = 'ó' ∨ c = 'ô' ∨ c = 'õ' ∨ c = 'ö' then 'o'
  else if c = 'ù' ∨ c = 'ú' ∨ c = 'û' ∨ c = 'ü' then 'u'
  else if c = 'ý' ∨ c = 'ÿ' then 'y'
  else c

/-- `_normalize_text`: lower-case, then strip accents. -/
def normalize_text (s : PyStr) : PyStr :=
  (pyLower s).map deaccentChar

/-!  `packages/config/__init__.py` : `SearchConfig`.  Floats are modelled
as exact rationals. -/

structure SearchConfig where
  default_limit : Nat
  max_limit : Nat
  similarity_threshold : ℚ
  out_of_scope_threshold : ℚ
  max_chunks_per_document : Nat
  rrf_k : Nat
  exclude_toc : Bool
  title_rerank_enabled : Bool
  title_rerank_boost : ℚ
  title_rerank_classifiers : List PyStr
  query_expansion_enabled : Bool
  query_expansion_model : PyStr
deriving DecidableEq

/-- The `SearchConfig` defaults (environment variables unset): limit 30,
max 100, similarity threshold 0.25, out-of-scope threshold 0.40, max chunks
per document 5, RRF k 50, TOC exclusion on, title rerank on with boost 0.15
and the default classifier list, query expansion on. -/
def defaultSearchConfig : SearchConfig :=
  ⟨30, 100, 1/4, 2/5, 5, 50, true, true, 3/20,
   [("type").data, ("classe").data, ("categorie").data, ("niveau").data,
    ("phase").data, ("etape").data, ("version").data],
   true, ("gpt-4o-mini").data⟩

/-- One retrieved row, with the dictionary fields the pipeline reads or
writes: `content`, `document_title`, `document_source`, `similarity`, and
the `title_boosted` marker set by re-ranking. -/
structure Result where
  content : PyStr
  document_title : PyStr
  document_source : PyStr
  similarity : ℚ
  title_boosted : Bool
deriving DecidableEq

/-- The loop body of `_calculate_title_boost`: a keyword found (lower-cased)
in the normalized title adds the primary boost when it starts with a
classifier, the secondary boost otherwise. -/
def boostStep (normalized_title : PyStr) (primary_boost secondary_boost : ℚ)
    (classifiers : List PyStr) (b : ℚ) (keyword : PyStr) : ℚ :=
  let keyword_lower := pyLower keyword
  if containsSub keyword_lower normalized_title then
    if classifiers.any (fun c => c.isPrefixOf keyword_lower) then
      b + primary_boost
    else
      b + secondary_boost
  else b

/-- `_calculate_title_boost` from `search_knowledge_base.py`: sum a primary
boost (`max_boost * 2 / 3`) for each classifier-pattern keyword found in the
accent-stripped title and a secondary boost (`max_boost / 5`) for each other
keyword found there, then cap the total at `max_boost`. -/
def calculate_title_boost (doc_title : PyStr) (keywords : List PyStr)
    (max_boost : ℚ) (classifiers : List PyStr) : ℚ :=
  if keywords.isEmpty || doc_title.isEmpty then 0
  else
    let normalized_title := normalize_text doc_title
    let primary_boost := max_boost * 2 / 3
    let secondary_boost := max_boost / 5
    let boost := keywords.foldl
      (boostStep normalized_title primary_boost secondary_boost classifiers) 0
    min boost max_boost

/-- The per-row boost application in `search_knowledge_base` (lines
210-221): when the computed boost is positive the similarity is raised,
clamped at 1.0, and the row is marked `title_boosted`. -/
def applyTitleBoost (cfg : SearchConfig) (keywords : List PyStr)
    (r : Result) : Result :=
  let boost := calculate_title_boost r.document_title keywords
    cfg.title_rerank_boost cfg.title_rerank_classifiers
  if 0 < boost then
    ⟨r.content, r.document_title, r.document_source,
     min (r.similarity + boost) 1, true⟩
  else r

/-- Insertion before the first strictly-smaller key: together with
`sortDescBy` this is the unique stable descending sort, which is the
behaviour of Python's stable `sorted(..., key=..., reverse=True)`. -/
def insertDescBy {α : Type} (key : α → ℚ) (x : α) : List α → List α
  | [] => [x]
  | y :: ys =>
    if key y ≤ key x then x :: y :: ys else y :: insertDescBy key x ys

/-- Stable sort by descending key (Python `sorted(..., reverse=True)`). -/
def sortDescBy {α : Type} (key : α → ℚ) : List α → List α
  | [] => []
  | x :: xs => insertDescBy key x (sortDescBy key xs)

/-- The title re-ranking stage of `search_knowledge_base` (lines 204-225):
with a non-empty keyword list every row receives its boost and the rows are
re-sorted by boosted similarity, descending and stable; with no keywords
(in particular when `title_rerank_enabled` is off, which makes the tool
extract no keywords) the list passes through unchanged. -/
def title_rerank (cfg : SearchConfig) (keywords : List PyStr)
    (results : List Result) : List Result :=
  if keywords.isEmpty then results
  else sortDescBy Result.similarity (results.map (applyTitleBoost cfg keywords))

/-- The three continuations after retrieval in the tool: the "no results"
refusal message (line 242), the distinct "out of scope" refusal message
(lines 251-257), or the pass-through of the result list into answer
formatting (lines 259 onward). -/
inductive ScopeOutcome where
  | noResults : ScopeOutcome
  | outOfScope : ScopeOutcome
  | answer : List Result → ScopeOutcome
deriving DecidableEq

/-- `max((r.get("similarity", 0) for r in results), default=0)`. -/
def maxSimilarity : List Result → ℚ
  | [] => 0
  | r :: rs => rs.foldl (fun m x => max m x.similarity) r.similarity

/-- The post-retrieval scope check of `search_knowledge_base` (lines
239-257): empty list → "no results"; non-empty with maximum similarity
strictly below the out-of-scope threshold → "out of scope"; otherwise the
results pass through unchanged. -/
def scope_check (cfg : SearchConfig) (results : List Result) : ScopeOutcome :=
  if results.isEmpty then .noResults
  else if maxSimilarity results < cfg.out_of_scope_threshold then .outOfScope
  else .answer results

/-- The composition the tool actually executes: title re-ranking first
(lines 204-225), scope check after (lines 239-257). -/
def tool_post_retrieval (cfg : SearchConfig) (keywords : List PyStr)
    (results : List Result) : ScopeOutcome :=
  scope_check cfg (title_rerank cfg keywords results)

/-!  `packages/utils/supabase_client.py` : the search RPCs, with an explicit
trace of outgoing calls.  The remote service is an oracle mapping each
argument record to a result list or a raised exception. -/

/-- Argument record of the `hybrid_search` RPC (fused search). -/
structure FusedArgs where
  query_text : PyStr
  query_embedding : List ℚ
  match_count : Nat
  similarity_threshold : ℚ
  exclude_toc : Bool
  rrf_k : Nat
  max_per_doc : Nat
deriving DecidableEq

/-- Argument record of the `match_chunks` RPC (semantic-only search). -/
structure MatchArgs where
  query_embedding : List ℚ
  match_count : Nat
  similarity_threshold : ℚ
deriving DecidableEq

/-- One outgoing RPC, as recorded in the call trace. -/
inductive RpcCall where
  | fused : FusedArgs → RpcCall
  | matchChunks : MatchArgs → RpcCall
deriving DecidableEq

/-- Behaviour of the remote search service: what each RPC returns or the
exception message it raises. -/
structure RpcOracle where
  fusedResult : FusedArgs → Except PyStr (List Result)
  matchResult : MatchArgs → Except PyStr (List Result)

/-- `similarity_search`: one `match_chunks` RPC; an exception is logged and
re-raised. -/
def similarity_search (o : RpcOracle) (query_embedding : List ℚ)
    (limit : Nat) (similarity_threshold : ℚ) :
    Except PyStr (List Result) × List RpcCall :=
  let a : MatchArgs := ⟨query_embedding, limit, similarity_threshold⟩
  (o.matchResult a, [.matchChunks a])

/-- The parameter default `max_per_doc: int = 3` of `hybrid_search`. -/
def hybrid_search_default_max_per_doc : Nat := 3

/-- `hybrid_search`: one fused-search RPC; on any exception, exactly one
fallback `similarity_search` with the same embedding, limit and threshold.
The second component is the trace of RPCs issued, in order. -/
def hybrid_search (o : RpcOracle) (query_text : PyStr)
    (query_embedding : List ℚ) (limit : Nat) (similarity_threshold : ℚ)
    (exclude_toc : Bool) (rrf_k : Nat) (max_per_doc : Nat) :
    Except PyStr (List Result) × List RpcCall :=
  let a : FusedArgs :=
    ⟨query_text, query_embedding, limit, similarity_threshold,
     exclude_toc, rrf_k, max_per_doc⟩
  match o.fusedResult a with
  | .ok rows => (.ok rows, [.fused a])
  | .error _ =>
    let fb := similarity_search o query_embedding limit similarity_threshold
    (fb.1, .fused a :: fb.2)

/-- The fused-search argument record produced by the tool call site
(`tools/search_knowledge_base.py` lines 195-202): `exclude_toc` and `rrf_k`
come from settings; `max_per_doc` is not passed, so the RPC receives the
`hybrid_search` parameter default. -/
def tool_fused_args (cfg : SearchConfig) (query_text : PyStr)
    (query_embedding : List ℚ) (limit : Nat) : FusedArgs :=
  ⟨query_text, query_embedding, limit, cfg.similarity_threshold,
   cfg.exclude_toc, cfg.rrf_k, hybrid_search_default_max_per_doc⟩

/-- The tool's hybrid-search invocation together with its call trace. -/
def tool_hybrid_search (o : RpcOracle) (cfg : SearchConfig)
    (query_text : PyStr) (query_embedding : List ℚ) (limit : Nat) :
    Except PyStr (List Result) × List RpcCall :=
  hybrid_search o query_text query_embedding limit cfg.similarity_threshold
    cfg.exclude_toc cfg.rrf_k hybrid_search_default_max_per_doc

/-!  `packages/core/query_expansion.py`  -/

/-- The expander returned by `get_query_expander`: the no-op pass-through
or the LLM expander carrying the configured model identifier. -/
inductive Expander where
  | noOp : Expander
  | llm : PyStr → Expander
deriving DecidableEq

/-- `get_query_expander`: disabled → `NoOpQueryExpander`; enabled →
`LLMQueryExpander(model=settings.search.query_expansion_model)`. -/
def get_query_expander (cfg : SearchConfig) : Expander :=
  if !cfg.query_expansion_enabled then .noOp
  else .llm cfg.query_expansion_model

/-- Environment of one `expand` call: the API key (if any) and the model's
completion for the constructed prompt, or the exception it raises. -/
structure LlmEnv where
  api_key : Option PyStr
  completion : Except PyStr PyStr

/-- `expand` of the two expander classes.  The second component counts the
`AsyncOpenAI` clients constructed (equivalently, model calls attempted):
`NoOpQueryExpander.expand` makes none; `LLMQueryExpander.expand` returns
the query unchanged without a client when the key is missing, otherwise
constructs one client, returns `query + " " + completion.strip()`, and
falls back to the unexpanded query on any error. -/
def expander_expand (e : Expander) (env : LlmEnv) (query : PyStr) :
    PyStr × Nat :=
  match e with
  | .noOp => (query, 0)
  | .llm _ =>
    match env.api_key with
    | none => (query, 0)
    | some _ =>
      match env.completion with
      | .ok text => (query ++ ' ' :: pyStrip text, 1)
      | .error _ => (query, 1)

/-!  `packages/core/agent.py` : `is_toc_chunk` and the client-side TOC
filter.  The five regular expressions of `TOC_PATTERNS` are translated into
structural matchers; `re.MULTILINE` full-line anchoring becomes a check on
each `\n`-separated segment. -/

def isAsciiLetter (c : Char) : Bool :=
  ('A' ≤ c && c ≤ 'Z') || ('a' ≤ c && c ≤ 'z')

def isAsciiDigit (c : Char) : Bool := '0' ≤ c && c ≤ '9'

/-- Consume a literal, returning the remainder on success. -/
def expectLit (lit : PyStr) (s : PyStr) : Option PyStr :=
  if lit.isPrefixOf s then some (s.drop lit.length) else none

def dropWs (s : PyStr) : PyStr := s.dropWhile isPySpace

/-- `^\s*table\s*(des\s*)?mati[èe]res?\s*$` (IGNORECASE), on one line. -/
def tocPat1 (line : PyStr) : Bool :=
  match expectLit (("table").data) (dropWs (pyLower line)) with
  | none => false
  | some l =>
    let l := dropWs l
    let l := match expectLit (("des").data) l with
      | some l2 => dropWs l2
      | none => l
    match expectLit (("mati").data) l with
    | none => false
    | some l =>
      match l with
      | [] => false
      | c :: l =>
        (c = 'è' || c = 'e') &&
        (match expectLit (("re").data) l with
         | none => false
         | some l =>
           let l := match l with
             | 's' :: t => t
             | _ => l
           (dropWs l).isEmpty)

/-- `^\s*sommaire\s*$` (IGNORECASE), on one line. -/
def tocPat2 (line : PyStr) : Bool :=
  match expectLit (("sommaire").data) (dropWs (pyLower line)) with
  | some r => (dropWs r).isEmpty
  | none => false

/-- `^\s*contents?\s*$` (IGNORECASE), on one line. -/
def tocPat3 (line : PyStr) : Bool :=
  match expectLit (("content").data) (dropWs (pyLower line)) with
  | some r =>
    let r := match r with
      | 's' :: t => t
      | _ => r
    (dropWs r).isEmpty
  | none => false

/-- `^[A-Z\s\.]+\s+\d+\s*$` (IGNORECASE makes the class match both cases):
after removing trailing whitespace the line must end in a non-empty digit
run, preceded by whitespace, with everything before the digits made of
ASCII letters, whitespace and dots (and non-empty beyond the final
whitespace). -/
def tocPat4 (line : PyStr) : Bool :=
  let r := line.reverse.dropWhile isPySpace
  let ds := r.takeWhile isAsciiDigit
  let rest := r.dropWhile isAsciiDigit
  !ds.isEmpty && 2 ≤ rest.length &&
    (match rest with
     | c :: _ => isPySpace c
     | [] => false) &&
    rest.all (fun c => isAsciiLetter c || isPySpace c || c = '.')

/-- `^\d+\.\s+.{5,50}\s+\d+\s*$`: a leading digit run, a dot, whitespace,
a 5-50 character middle, whitespace, and a final digit run.  The bounded
middle is found by searching all split positions, reproducing the regex's
backtracking. -/
def tocPat5 (line : PyStr) : Bool :=
  let t := (line.reverse.dropWhile isPySpace).reverse
  let d1 := t.takeWhile isAsciiDigit
  if d1.isEmpty then false
  else
    match t.drop d1.length with
    | '.' :: r2 =>
      (List.range r2.length).any (fun a =>
        0 < a && a ≤ (r2.takeWhile isPySpace).length &&
        (List.range 51).any (fun k =>
          5 ≤ k &&
          (match r2.drop (a + k) with
           | [] => false
           | c :: _ =>
             isPySpace c &&
             (let r4 := (r2.drop (a + k)).dropWhile isPySpace
              !r4.isEmpty && r4.all isAsciiDigit))))
    | _ => false

/-- `re.search(r"\s+\d+\s*$", line.strip())`: the stripped line ends in a
non-empty digit run immediately preceded by whitespace. -/
def endsWithPageNum (s : PyStr) : Bool :=
  let r := s.reverse
  !(r.takeWhile isAsciiDigit).isEmpty &&
    (match r.dropWhile isAsciiDigit with
     | c :: _ => isPySpace c
     | [] => false)

/-- `is_toc_chunk` from `agent.py`: short contents are never TOC; if more
than half of the stripped content's lines end in a page-number reference it
is TOC; otherwise the five `TOC_PATTERNS` are searched (multiline) over the
raw content. -/
def is_toc_chunk (content : PyStr) : Bool :=
  let st := pyStrip content
  if st.length < 10 then false
  else
    let lines := pySplitOn '\n' st
    let page_ref_lines := lines.countP (fun l => endsWithPageNum (pyStrip l))
    if lines.length < 2 * page_ref_lines then true
    else
      (pySplitOn '\n' content).any
        (fun l => tocPat1 l || tocPat2 l || tocPat3 l || tocPat4 l || tocPat5 l)

/-- The client-side TOC filter of `agent.py`'s `search_knowledge_base`
(lines 417-433): drop TOC-classified rows, but if that would empty a
non-empty list, keep the original list (a warning is logged; nothing else
is recorded). -/
def toc_filter (results : List Result) : List Result :=
  let filtered := results.filter (fun r => !is_toc_chunk r.content)
  if filtered.isEmpty && !results.isEmpty then results else filtered

/-!  `services/api/app/core/rag_wrapper.py` and
`services/api/app/api/chat.py` : citation extraction and the sources
event reported to the client. -/

/-- `\w` for the ASCII + Latin-1 repertoire (Python's `re` is Unicode-aware;
the Latin-1 letters cover the French corpus). -/
def isWordChar (c : Char) : Bool :=
  isAsciiLetter c || isAsciiDigit c || c = '_' ||
    (192 ≤ c.toNat && c.toNat ≤ 255 && c.toNat ≠ 215 && c.toNat ≠ 247)

/-- Numeric value of a digit run. -/
def digitsVal (ds : PyStr) : Nat :=
  ds.foldl (fun n c => 10 * n + (c.toNat - 48)) 0

/-- Left-to-right scan for `(?<!\w)\[(\d+)\](?!\()`: at each `[` whose
preceding character is not a word character, a non-empty digit run closed
by `]` not followed by `(` is a match; scanning resumes after the `]`.
The fuel only makes the recursion structural (`fuel ≥ s.length` suffices,
as every step consumes at least one character). -/
def scanCitesGo : Nat → Option Char → PyStr → List Nat
  | 0, _, _ => []
  | fuel + 1, prev, s =>
    match s with
    | [] => []
    | '[' :: rest =>
      let ds := rest.takeWhile isAsciiDigit
      let r2 := rest.drop ds.length
      if !(match prev with
            | some c => isWordChar c
            | none => false) &&
         !ds.isEmpty &&
         (match r2 with
          | ']' :: r3 => r3.head? ≠ some '('
          | _ => false)
      then digitsVal ds :: scanCitesGo fuel (some ']') (r2.drop 1)
      else scanCitesGo fuel (some '[') rest
    | c :: rest => scanCitesGo fuel (some c) rest

/-- `extract_cited_indices` from `rag_wrapper.py`: the set of bracketed
integers found by `re.findall(r"(?<!\w)\[(\d+)\](?!\()", text)`. -/
def extract_cited_indices (response_text : PyStr) : Finset ℕ :=
  (scanCitesGo response_text.length none response_text).toFinset

/-- One source object as tracked for the frontend. -/
structure SourceObj where
  title : PyStr
  path : PyStr
  similarity : ℚ
deriving DecidableEq

/-- The `sources` SSE payload assembled by `stream_agent_response` (lines
264-280) and forwarded verbatim by `event_stream` (`chat.py` lines 84-92):
sources sorted by descending similarity, plus the cited indices. -/
structure SourcesEvent where
  sources : List SourceObj
  cited_indices : Finset ℕ
deriving DecidableEq

/-- Build the sources event from the final answer text and the tracked
sources: the cited indices are exactly the extracted ones, with no range
filtering against the source count. -/
def make_sources_event (final_text : PyStr) (sources : List SourceObj) :
    SourcesEvent :=
  ⟨sortDescBy SourceObj.similarity sources, extract_cited_indices final_text⟩

/-!  `packages/utils/cache.py` : `AsyncLRUCache`, modelled as an ordered
association list (front = least recently used), with explicit time. -/

/-- Cache contents (insertion/recency-ordered, like `OrderedDict`) and the
capacity. -/
structure LRUState (α : Type) where
  entries : List (PyStr × α × Option ℚ)
  max_size : Nat

/-- The initial, empty cache. -/
def emptyCache (α : Type) (max_size : Nat) : LRUState α := ⟨[], max_size⟩

/-- `_evict_if_needed`: `while len(cache) >= max_size: popitem(last=False)`.
`none` models the `KeyError` that `popitem` raises on an empty dict (only
reachable with `max_size = 0`). -/
def evictLoop (max_size : Nat) : List β → Option (List β)
  | [] => if max_size = 0 then none else some []
  | x :: t =>
    if max_size ≤ t.length + 1 then evictLoop max_size t else some (x :: t)

/-- `_is_expired`: `expires_at is not None and time.time() > expires_at`. -/
def isExpired (now : ℚ) : Option ℚ → Bool
  | some t => now > t
  | none => false

/-- `async_get`: miss on absence; expired entries are deleted and miss;
hits are moved to the most-recent end. -/
def async_get (st : LRUState α) (key : PyStr) (now : ℚ) :
    Option α × LRUState α :=
  match st.entries.find? (fun e => e.1 = key) with
  | none => (none, st)
  | some (_, v, exp) =>
    if isExpired now exp then
      (none, ⟨st.entries.filter (fun e => !(e.1 = key)), st.max_size⟩)
    else
      (some v,
       ⟨st.entries.filter (fun e => !(e.1 = key)) ++ [(key, v, exp)],
        st.max_size⟩)

/-- `async_set`: resolve the TTL (`0` and `None` are falsy → no expiry),
evict while full when the key is new, then write the entry at the
most-recent end.  `none` models the propagated `KeyError` of a failing
eviction (cache left unchanged). -/
def async_set (st : LRUState α) (key : PyStr) (v : α) (ttl : Option ℚ)
    (default_ttl : Option ℚ) (now : ℚ) : Option (LRUState α) :=
  let t := match ttl with
    | some x => some x
    | none => default_ttl
  let expires : Option ℚ := match t with
    | some x => if x = 0 then none else some (now + x)
    | none => none
  if st.entries.any (fun e => e.1 = key) then
    some ⟨st.entries.filter (fun e => !(e.1 = key)) ++ [(key, v, expires)],
          st.max_size⟩
  else
    match evictLoop st.max_size st.entries with
    | none => none
    | some es => some ⟨es ++ [(key, v, expires)], st.max_size⟩

/-- `async_delete`: remove the key if present. -/
def async_delete (st : LRUState α) (key : PyStr) : Bool × LRUState α :=
  if st.entries.any (fun e => e.1 = key) then
    (true, ⟨st.entries.filter (fun e => !(e.1 = key)), st.max_size⟩)
  else (false, st)

/-- One cache operation, with the time at which it runs. -/
inductive CacheOp (α : Type) where
  | get : PyStr → ℚ → CacheOp α
  | set : PyStr → α → Option ℚ → ℚ → CacheOp α
  | del : PyStr → CacheOp α

/-- Run one operation (a raising `async_set` leaves the cache unchanged). -/
def runCacheOp (default_ttl : Option ℚ) (st : LRUState α) :
    CacheOp α → LRUState α
  | .get k now => (async_get st k now).2
  | .set k v ttl now => (async_set st k v ttl default_ttl now).getD st
  | .del k => (async_delete st k).2

/-- Run a finite sequence of operations. -/
def runCacheOps (default_ttl : Option ℚ) (st : LRUState α)
    (ops : List (CacheOp α)) : LRUState α :=
  ops.foldl (runCacheOp default_ttl) st

/-!  ## Helper lemmas  -/

theorem evictLoop_length {β : Type} (m : Nat) (l l' : List β)
    (h : evictLoop m l = some l') : l'.length < m := by
  induction l with
  | nil =>
    unfold evictLoop at h
    split at h
    · exact absurd h (by simp)
    · cases h
      simpa using Nat.pos_of_ne_zero (by assumption)
  | cons x t ih =>
    unfold evictLoop at h
    split at h
    · exact ih h
    · cases h
      simp only [List.length_cons]
      omega

theorem filter_not_length_lt {β : Type} (p : β → Bool) (l : List β)
    (h : ∃ x ∈ l, p x = true) :
    (l.filter (fun x => !p x)).length < l.length := by
  induction l with
  | nil => simp at h
  | cons c t ih =>
    obtain ⟨x, hx, hpx⟩ := h
    cases hpc : p c with
    | true =>
      have := List.length_filter_le (fun x => !p x) t
      simp [List.filter_cons, hpc]
      omega
    | false =>
      have hxt : x ∈ t := by
        rcases List.mem_cons.mp hx with rfl | h2
        · rw [hpc] at hpx
          cases hpx
        · exact h2
      have := ih ⟨x, hxt, hpx⟩
      simp [List.filter_cons, hpc]
      omega

theorem runCacheOp_max {α : Type} (d : Option ℚ) (st : LRUState α)
    (op : CacheOp α) : (runCacheOp d st op).max_size = st.max_size := by
  cases op <;>
    simp only [runCacheOp, async_get, async_set, async_delete] <;>
    (repeat' split) <;> rfl

theorem runCacheOp_len {α : Type} (d : Option ℚ) (st : LRUState α)
    (op : CacheOp α) (h : st.entries.length ≤ st.max_size) :
    (runCacheOp d st op).entries.length ≤ st.max_size := by
  cases op with
  | get k now =>
    simp only [runCacheOp, async_get]
    split
    · exact h
    · next fst v2 exp2 heq =>
      have hmem := List.mem_of_find?_eq_some heq
      have hp := List.find?_some heq
      have hlt : (st.entries.filter (fun e => !decide (e.1 = k))).length <
          st.entries.length :=
        filter_not_length_lt (fun e => decide (e.1 = k)) st.entries
          ⟨(fst, v2, exp2), hmem, hp⟩
      split
      · dsimp only
        have := List.length_filter_le (fun e => !decide (e.1 = k)) st.entries
        omega
      · dsimp only
        simp only [List.length_append, List.length_cons, List.length_nil]
        omega
  | set k v ttl now =>
    simp only [runCacheOp, async_set]
    split
    · next hany =>
      have hex := List.any_eq_true.mp hany
      have hlt : (st.entries.filter (fun e => !decide (e.1 = k))).length <
          st.entries.length :=
        filter_not_length_lt (fun e => decide (e.1 = k)) st.entries hex
      simp only [Option.getD_some, List.length_append, List.length_cons,
        List.length_nil]
      omega
    · split
      · next he =>
        simpa using h
      · next es he =>
        have := evictLoop_length st.max_size st.entries es he
        simp only [Option.getD_some, List.length_append, List.length_cons,
          List.length_nil]
        omega
  | del k =>
    simp only [runCacheOp, async_delete]
    split
    · dsimp only
      have := List.length_filter_le (fun e => !decide (e.1 = k)) st.entries
      omega
    · exact h

theorem runCacheOps_bound {α : Type} (d : Option ℚ) (ops : List (CacheOp α))
    (st : LRUState α) (h : st.entries.length ≤ st.max_size) :
    (runCacheOps d st ops).entries.length ≤ st.max_size ∧
      (runCacheOps d st ops).max_size = st.max_size := by
  induction ops generalizing st with
  | nil => exact ⟨h, rfl⟩
  | cons op ops ih =>
    have hmax := runCacheOp_max d st op
    have hlen := runCacheOp_len d st op h
    have h2 := ih (runCacheOp d st op) (hmax ▸ hlen)
    simp only [runCacheOps, List.foldl_cons] at *
    exact ⟨hmax ▸ h2.1, hmax ▸ h2.2⟩

/-!  ## Claim theorems  -/

/-- C10: starting from an empty `AsyncLRUCache` of capacity `max_size`,
after any finite sequence of `async_get`, `async_set` and `async_delete`
operations the number of stored entries never exceeds `max_size`
(`async_set` evicts least-recently-used entries before inserting a new
key; a failing eviction aborts the insertion). -/
theorem claim_C10_lru_bounded (α : Type) (default_ttl : Option ℚ)
    (max_size : Nat) (ops : List (CacheOp α)) :
    (runCacheOps default_ttl (emptyCache α max_size) ops).entries.length ≤
      max_size :=
  (runCacheOps_bound default_ttl ops (emptyCache α max_size)
    (by simp [emptyCache])).1

/-- C1: for every result list reaching the scope check of
`search_knowledge_base`, the "no results" refusal is returned iff the list
is empty, the distinct "out of scope" refusal is returned iff the list is
non-empty with maximum similarity strictly below the out-of-scope
threshold, and otherwise the list passes through unchanged into the
formatted answer; the tool runs this check on the title-reranked list. -/
theorem claim_C1_scope_check (cfg : SearchConfig) (kws : List PyStr)
    (retrieved l : List Result) :
    (scope_check cfg l = .noResults ↔ l = []) ∧
    (scope_check cfg l = .outOfScope ↔
      l ≠ [] ∧ maxSimilarity l < cfg.out_of_scope_threshold) ∧
    (l ≠ [] → ¬ maxSimilarity l < cfg.out_of_scope_threshold →
      scope_check cfg l = .answer l) ∧
    tool_post_retrieval cfg kws retrieved =
      scope_check cfg (title_rerank cfg kws retrieved) := by
  refine ⟨?_, ?_, ?_, rfl⟩ <;>
    simp only [scope_check, List.isEmpty_iff] <;>
    split <;> simp_all <;> split <;> simp_all

/-- C1 witness: a concrete non-empty, above-threshold list passes through
unchanged. -/
theorem claim_C1_witness :
    scope_check defaultSearchConfig [⟨[], [], [], 1/2, false⟩] =
      .answer [⟨[], [], [], 1/2, false⟩] :=
  (claim_C1_scope_check defaultSearchConfig [] [] _).2.2.1 (by decide)
    (by norm_num [maxSimilarity, defaultSearchConfig])

/-- C2: if the fused-search RPC raises, `hybrid_search` performs exactly
one fallback semantic-only search with the same embedding, limit and
threshold (trace `[fused, match_chunks]`), and if the fused RPC succeeds
no fallback happens (trace `[fused]`): the two paths are attempted at most
once each, with no retry loop. -/
theorem claim_C2_fallback (o : RpcOracle) (a : FusedArgs) :
    (∀ e, o.fusedResult a = .error e →
      hybrid_search o a.query_text a.query_embedding a.match_count
          a.similarity_threshold a.exclude_toc a.rrf_k a.max_per_doc =
        (o.matchResult
           ⟨a.query_embedding, a.match_count, a.similarity_threshold⟩,
         [.fused a,
          .matchChunks
            ⟨a.query_embedding, a.match_count, a.similarity_threshold⟩])) ∧
    (∀ rows, o.fusedResult a = .ok rows →
      hybrid_search o a.query_text a.query_embedding a.match_count
          a.similarity_threshold a.exclude_toc a.rrf_k a.max_per_doc =
        (.ok rows, [.fused a])) := by
  constructor
  · intro e he
    simp [hybrid_search, similarity_search, he]
  · intro rows hok
    simp [hybrid_search, hok]

/-- C2 witness: a concretely failing fused RPC triggers exactly the one
fallback call. -/
theorem claim_C2_witness :
    hybrid_search (⟨fun _ => .error (("boom").data), fun _ => .ok []⟩ :
        RpcOracle) [] [] 30 (1/4) true 50 3 =
      (.ok [], [.fused ⟨[], [], 30, 1/4, true, 50, 3⟩,
                .matchChunks ⟨[], 30, 1/4⟩]) :=
  (claim_C2_fallback _ ⟨[], [], 30, 1/4, true, 50, 3⟩).1 (("boom").data) rfl

/-- C3 counterexample: the tool's fused-search call passes `max_per_doc`
equal to the `hybrid_search` parameter default (3), not
`settings.search.max_chunks_per_document` (default 5). -/
theorem claim_C3_counterexample :
    (tool_fused_args defaultSearchConfig [] [] 30).max_per_doc ≠
      defaultSearchConfig.max_chunks_per_document := by decide

/-- C3 (amended): for every knowledge-base search request the fused-search
RPC receives `max_per_doc = 3` — the `hybrid_search` parameter default —
because the tool never forwards `settings.search.max_chunks_per_document`;
the first traced RPC is exactly that fused call. -/
theorem claim_C3_amended (o : RpcOracle) (cfg : SearchConfig) (qt : PyStr)
    (emb : List ℚ) (limit : Nat) :
    (tool_fused_args cfg qt emb limit).max_per_doc = 3 ∧
    (tool_hybrid_search o cfg qt emb limit).2.head? =
      some (.fused (tool_fused_args cfg qt emb limit)) := by
  refine ⟨rfl, ?_⟩
  simp only [tool_hybrid_search, hybrid_search, similarity_search]
  cases h : o.fusedResult ⟨qt, emb, limit, cfg.similarity_threshold,
    cfg.exclude_toc, cfg.rrf_k, hybrid_search_default_max_per_doc⟩ <;>
    simp [h, tool_fused_args]

/-- C4 counterexample: on an all-TOC input the filter returns the input
list bit-for-bit unchanged — no field of any returned row (and no other
caller-visible value) records that filtering was skipped; the skip is only
logged. -/
theorem claim_C4_counterexample :
    is_toc_chunk (("a 1\nb 2\nc 3").data) = true ∧
    toc_filter [⟨("a 1\nb 2\nc 3").data, [], [], 1, false⟩] =
      [⟨("a 1\nb 2\nc 3").data, [], [], 1, false⟩] := by decide

/-- C4 (amended): the TOC filter never empties a non-empty list; when every
passage is TOC-classified the original list is returned unchanged (a
warning is logged, but no caller-observable flag is set); when at least
one passage is not TOC-classified, exactly the TOC-classified passages are
removed, preserving relative order. -/
theorem claim_C4_amended (l : List Result) :
    (l ≠ [] → toc_filter l ≠ []) ∧
    ((∀ r ∈ l, is_toc_chunk r.content = true) → toc_filter l = l) ∧
    ((∃ r ∈ l, is_toc_chunk r.content = false) →
      toc_filter l = l.filter (fun r => !is_toc_chunk r.content)) := by
  refine ⟨?_, ?_, ?_⟩
  · intro hne
    simp only [toc_filter]
    split
    · exact hne
    · next hcond =>
      intro hnil
      apply hcond
      simp [hnil, List.isEmpty_iff, hne]
  · intro hall
    have hnil : l.filter (fun r => !is_toc_chunk r.content) = [] := by
      rw [List.filter_eq_nil_iff]
      intro a ha
      simp [hall a ha]
    cases l with
    | nil => rfl
    | cons x t => simp [toc_filter, hnil]
  · intro hex
    obtain ⟨r, hr, hnot⟩ := hex
    have hmem : r ∈ l.filter (fun r => !is_toc_chunk r.content) :=
      List.mem_filter.mpr ⟨hr, by simp [hnot]⟩
    have hne2 : l.filter (fun r => !is_toc_chunk r.content) ≠ [] :=
      List.ne_nil_of_mem hmem
    simp [toc_filter, List.isEmpty_iff, hne2]

/-- C4 witness: a mixed list keeps exactly its non-TOC row. -/
theorem claim_C4_witness :
    toc_filter [⟨("a 1\nb 2\nc 3").data, [], [], 1, false⟩,
                ⟨("du contenu normal sans rien").data, [], [], 1, false⟩] =
      [⟨("du contenu normal sans rien").data, [], [], 1, false⟩] := by
  have h := (claim_C4_amended
    [⟨("a 1\nb 2\nc 3").data, [], [], 1, false⟩,
     ⟨("du contenu normal sans rien").data, [], [], 1, false⟩]).2.2
    ⟨⟨("du contenu normal sans rien").data, [], [], 1, false⟩,
      by decide, by decide⟩
  rw [h]
  decide

/-- C6 counterexample: on the empty input query the normalizer returns the
empty string (the fallback returns the original query, which is empty). -/
theorem claim_C6_counterexample :
    reformulate_query (("").data) = ("").data := by decide

/-- C6 (amended): for every non-empty input query the normalizer returns a
non-empty string, and whenever pattern removal plus stopword filtering
leaves an empty result the original query is returned unchanged; so the
output is empty only when the input itself is empty. -/
theorem claim_C6_amended (q : PyStr) (h : q ≠ []) :
    reformulate_query q ≠ [] ∧
    (reformulate_core q = [] → reformulate_query q = q) := by
  unfold reformulate_query
  by_cases hc : reformulate_core q = []
  · simp [hc, h]
  · simp [hc, List.isEmpty_iff]

/-- C6 witness: a pure-stopword query ("est") falls back to itself,
non-empty. -/
theorem claim_C6_witness :
    reformulate_query (("est").data) ≠ [] :=
  (claim_C6_amended (("est").data) (by decide)).1

/-- C8: when query expansion is disabled, the factory returns the no-op
expander, and expanding any query returns it exactly unchanged with zero
language-model clients constructed or called. -/
theorem claim_C8_noop_expander (cfg : SearchConfig)
    (h : cfg.query_expansion_enabled = false) :
    get_query_expander cfg = .noOp ∧
    ∀ env q, expander_expand (get_query_expander cfg) env q = (q, 0) := by
  constructor
  · simp [get_query_expander, h]
  · intro env q
    simp [get_query_expander, h, expander_expand]

/-- C8 witness: a concrete disabled configuration yields the no-op
expander and the identity expansion. -/
theorem claim_C8_witness :
    expander_expand
      (get_query_expander ⟨30, 100, 1/4, 2/5, 5, 50, true, true, 3/20, [],
        false, []⟩)
      ⟨some (("k").data), .ok (("x").data)⟩ (("bonjour").data) =
      ((("bonjour").data), 0) :=
  (claim_C8_noop_expander _ rfl).2 _ _

/-- C9 counterexample: the cited indices reported with the sources event
are not restricted to `[1, len(results)]`: the answer text `"[99]"` with a
single source reports index 99. -/
theorem claim_C9_counterexample :
    ¬ (∀ i ∈ (make_sources_event (("[99]").data)
          [⟨[], [], 1⟩]).cited_indices,
        1 ≤ i ∧ i ≤ ([(⟨[], [], 1⟩ : SourceObj)] : List SourceObj).length) := by
  decide

/-- C9 (amended): the cited-index set reported to the client is exactly the
set of bracketed integers extracted from the answer text; it does not
depend on the result list at all — no out-of-range index is discarded, and
indices exceeding the number of sources can be reported. -/
theorem claim_C9_amended (final_text : PyStr) (s1 s2 : List SourceObj) :
    (make_sources_event final_text s1).cited_indices =
      (make_sources_event final_text s2).cited_indices ∧
    (make_sources_event final_text s1).cited_indices =
      extract_cited_indices final_text ∧
    ∃ text sources, ∃ i ∈ (make_sources_event text sources).cited_indices,
      sources.length < i :=
  ⟨rfl, rfl, ("[99]").data, [], 99, by decide, by decide⟩

/-!  ## Title-boost lemmas (C5)  -/

theorem boostStep_ge (nt : PyStr) (p s : ℚ) (cls : List PyStr) (b : ℚ)
    (k : PyStr) (hp : 0 ≤ p) (hs : 0 ≤ s) :
    b ≤ boostStep nt p s cls b k := by
  simp only [boostStep]
  split
  · split <;> linarith
  · linarith

theorem boostStep_add (nt : PyStr) (p s : ℚ) (cls : List PyStr) (b : ℚ)
    (k : PyStr) :
    boostStep nt p s cls b k = b + boostStep nt p s cls 0 k := by
  simp only [boostStep]
  split
  · split <;> ring
  · ring

theorem foldl_boostStep_shift (nt : PyStr) (p s : ℚ) (cls : List PyStr)
    (ks : List PyStr) :
    ∀ b : ℚ, ks.foldl (boostStep nt p s cls) b =
      b + ks.foldl (boostStep nt p s cls) 0 := by
  induction ks with
  | nil => intro b; simp
  | cons k ks ih =>
    intro b
    simp only [List.foldl_cons]
    rw [ih (boostStep nt p s cls b k), ih (boostStep nt p s cls 0 k),
      boostStep_add]
    ring

theorem foldl_boostStep_nonneg (nt : PyStr) (p s : ℚ) (cls : List PyStr)
    (ks : List PyStr) (hp : 0 ≤ p) (hs : 0 ≤ s) :
    ∀ b : ℚ, 0 ≤ b → 0 ≤ ks.foldl (boostStep nt p s cls) b := by
  induction ks with
  | nil => intro b hb; simpa using hb
  | cons k ks ih =>
    intro b hb
    simp only [List.foldl_cons]
    exact ih _ (le_trans hb (boostStep_ge nt p s cls b k hp hs))

theorem calculate_title_boost_nonneg (t : PyStr) (ks : List PyStr) (mb : ℚ)
    (cls : List PyStr) (h : 0 ≤ mb) :
    0 ≤ calculate_title_boost t ks mb cls := by
  simp only [calculate_title_boost]
  split
  · exact le_refl 0
  · exact le_min
      (foldl_boostStep_nonneg _ _ _ _ ks (by linarith) (by linarith) 0
        (le_refl 0)) h

theorem calculate_title_boost_le (t : PyStr) (ks : List PyStr) (mb : ℚ)
    (cls : List PyStr) (h : 0 ≤ mb) :
    calculate_title_boost t ks mb cls ≤ mb := by
  simp only [calculate_title_boost]
  split
  · exact h
  · exact min_le_right _ _

theorem calculate_title_boost_cons (t : PyStr) (k : PyStr) (ks : List PyStr)
    (mb : ℚ) (cls : List PyStr) (h : 0 ≤ mb) :
    calculate_title_boost t ks mb cls ≤
      calculate_title_boost t (k :: ks) mb cls := by
  have hp : (0 : ℚ) ≤ mb * 2 / 3 := by linarith
  have hs : (0 : ℚ) ≤ mb / 5 := by linarith
  have hstep : (0 : ℚ) ≤
      boostStep (normalize_text t) (mb * 2 / 3) (mb / 5) cls 0 k :=
    boostStep_ge _ _ _ _ 0 k hp hs
  by_cases ht : t.isEmpty
  · simp [calculate_title_boost, ht]
  · by_cases hks : ks.isEmpty
    · have he : ks = [] := List.isEmpty_iff.mp hks
      subst he
      simp only [calculate_title_boost]
      rw [if_pos (by simp), if_neg (by simp [ht])]
      simp only [List.foldl_cons, List.foldl_nil]
      exact le_min hstep h
    · simp only [calculate_title_boost]
      rw [if_neg (by simp [hks, ht]), if_neg (by simp [ht])]
      apply min_le_min ?h1 (le_refl mb)
      simp only [List.foldl_cons]
      have h2 := foldl_boostStep_shift (normalize_text t) (mb * 2 / 3)
        (mb / 5) cls ks
        (boostStep (normalize_text t) (mb * 2 / 3) (mb / 5) cls 0 k)
      linarith [h2, hstep]

/-!  ## Stable descending sort lemmas (C5)  -/

theorem insertDescBy_filter {α : Type} (key : α → ℚ) (x : α) (l : List α)
    (q : ℚ) :
    (insertDescBy key x l).filter (fun y => key y = q) =
      if key x = q then x :: l.filter (fun y => key y = q)
      else l.filter (fun y => key y = q) := by
  induction l with
  | nil =>
    simp only [insertDescBy, List.filter]
    split <;> simp_all
  | cons y ys ih =>
    simp only [insertDescBy]
    split
    · next hle =>
      simp only [List.filter_cons]
      split <;> simp_all
    · next hgt =>
      push_neg at hgt
      simp only [List.filter_cons, ih]
      by_cases hx : key x = q
      · have hy : ¬ (key y = q) := by
          intro hy
          rw [hx] at hgt
          rw [hy] at hgt
          exact lt_irrefl q hgt
        simp [hx, hy]
      · by_cases hy : key y = q <;> simp [hx, hy]

theorem sortDescBy_filter {α : Type} (key : α → ℚ) (l : List α) (q : ℚ) :
    (sortDescBy key l).filter (fun y => key y = q) =
      l.filter (fun y => key y = q) := by
  induction l with
  | nil => rfl
  | cons x xs ih =>
    simp only [sortDescBy, insertDescBy_filter, List.filter_cons, ih]
    by_cases hx : key x = q <;> simp [hx]

theorem insertDescBy_perm {α : Type} (key : α → ℚ) (x : α) (l : List α) :
    (insertDescBy key x l).Perm (x :: l) := by
  induction l with
  | nil => exact List.Perm.refl _
  | cons y ys ih =>
    simp only [insertDescBy]
    split
    · exact List.Perm.refl _
    · exact (List.Perm.cons y ih).trans (List.Perm.swap x y ys)

theorem sortDescBy_perm {α : Type} (key : α → ℚ) (l : List α) :
    (sortDescBy key l).Perm l := by
  induction l with
  | nil => exact List.Perm.refl _
  | cons x xs ih =>
    exact (insertDescBy_perm key x (sortDescBy key xs)).trans
      (List.Perm.cons x ih)

theorem mem_insertDescBy {α : Type} (key : α → ℚ) (x a : α) (l : List α)
    (h : a ∈ insertDescBy key x l) : a = x ∨ a ∈ l :=
  List.mem_cons.mp ((insertDescBy_perm key x l).mem_iff.mp h)

theorem insertDescBy_sorted {α : Type} (key : α → ℚ) (x : α) (l : List α)
    (h : l.Pairwise (fun a b => key b ≤ key a)) :
    (insertDescBy key x l).Pairwise (fun a b => key b ≤ key a) := by
  induction l with
  | nil => simp [insertDescBy]
  | cons y ys ih =>
    simp only [insertDescBy]
    split
    · next hle =>
      refine List.Pairwise.cons ?_ h
      intro z hz
      rcases List.mem_cons.mp hz with rfl | hzys
      · exact hle
      · exact le_trans ((List.pairwise_cons.mp h).1 z hzys) hle
    · next hgt =>
      push_neg at hgt
      have hys := (List.pairwise_cons.mp h).2
      refine List.Pairwise.cons ?_ (ih hys)
      intro z hz
      rcases mem_insertDescBy key x z _ hz with rfl | hzys
      · exact le_of_lt hgt
      · exact (List.pairwise_cons.mp h).1 z hzys

theorem sortDescBy_sorted {α : Type} (key : α → ℚ) (l : List α) :
    (sortDescBy key l).Pairwise (fun a b => key b ≤ key a) := by
  induction l with
  | nil => simp [sortDescBy]
  | cons x xs ih => exact insertDescBy_sorted key x _ ih

theorem applyTitleBoost_le_one (cfg : SearchConfig) (ks : List PyStr)
    (r : Result) (h : r.similarity ≤ 1) :
    (applyTitleBoost cfg ks r).similarity ≤ 1 := by
  simp only [applyTitleBoost]
  split
  · exact min_le_right _ _
  · exact h

theorem applyTitleBoost_mono (cfg : SearchConfig) (k : PyStr)
    (ks : List PyStr) (r : Result) (hmb : 0 ≤ cfg.title_rerank_boost)
    (hsim : r.similarity ≤ 1) :
    (applyTitleBoost cfg ks r).similarity ≤
      (applyTitleBoost cfg (k :: ks) r).similarity := by
  have h1 := calculate_title_boost_nonneg r.document_title ks
    cfg.title_rerank_boost cfg.title_rerank_classifiers hmb
  have h2 := calculate_title_boost_cons r.document_title k ks
    cfg.title_rerank_boost cfg.title_rerank_classifiers hmb
  simp only [applyTitleBoost]
  by_cases hb1 : 0 < calculate_title_boost r.document_title ks
      cfg.title_rerank_boost cfg.title_rerank_classifiers
  · rw [if_pos hb1, if_pos (lt_of_lt_of_le hb1 h2)]
    dsimp only
    exact min_le_min (by linarith) (le_refl 1)
  · rw [if_neg hb1]
    by_cases hb2 : 0 < calculate_title_boost r.document_title (k :: ks)
        cfg.title_rerank_boost cfg.title_rerank_classifiers
    · rw [if_pos hb2]
      dsimp only
      exact le_min (by linarith) hsim
    · rw [if_neg hb2]

/-- C5: title re-ranking is boost-monotonic and stable: the computed boost
lies in `[0, max_boost]`; the boosted similarity stays clamped at 1.0;
prepending one more keyword (matching or not) never decreases a passage's
final score; and the re-sort by boosted similarity is a stable descending
sort — passages with equal scores keep their prior relative order, the
output is a permutation of the input sorted by non-increasing score. -/
theorem claim_C5_title_rerank (cfg : SearchConfig) (kws : List PyStr)
    (k : PyStr) (r : Result) (l : List Result) (q : ℚ)
    (hmb : 0 ≤ cfg.title_rerank_boost) (hsim : r.similarity ≤ 1) :
    (0 ≤ calculate_title_boost r.document_title kws cfg.title_rerank_boost
        cfg.title_rerank_classifiers ∧
      calculate_title_boost r.document_title kws cfg.title_rerank_boost
        cfg.title_rerank_classifiers ≤ cfg.title_rerank_boost) ∧
    (applyTitleBoost cfg kws r).similarity ≤ 1 ∧
    (applyTitleBoost cfg kws r).similarity ≤
      (applyTitleBoost cfg (k :: kws) r).similarity ∧
    (sortDescBy Result.similarity l).filter (fun y => y.similarity = q) =
      l.filter (fun y => y.similarity = q) ∧
    (sortDescBy Result.similarity l).Pairwise
      (fun a b => b.similarity ≤ a.similarity) ∧
    (sortDescBy Result.similarity l).Perm l :=
  ⟨⟨calculate_title_boost_nonneg _ _ _ _ hmb,
    calculate_title_boost_le _ _ _ _ hmb⟩,
   applyTitleBoost_le_one cfg kws r hsim,
   applyTitleBoost_mono cfg k kws r hmb hsim,
   sortDescBy_filter Result.similarity l q,
   sortDescBy_sorted Result.similarity l,
   sortDescBy_perm Result.similarity l⟩

/-- C5 witness: concrete boost bounds for a classifier keyword matching a
real title under the default configuration. -/
theorem claim_C5_witness :
    0 ≤ calculate_title_boost ((("Occupation de type D").data))
        [(("type d").data)] defaultSearchConfig.title_rerank_boost
        defaultSearchConfig.title_rerank_classifiers ∧
    calculate_title_boost ((("Occupation de type D").data))
        [(("type d").data)] defaultSearchConfig.title_rerank_boost
        defaultSearchConfig.title_rerank_classifiers ≤
      defaultSearchConfig.title_rerank_boost :=
  (claim_C5_title_rerank defaultSearchConfig [(("type d").data)]
    (("chantier").data)
    ⟨[], ("Occupation de type D").data, [], 11/20, false⟩ [] 0
    (by norm_num [defaultSearchConfig]) (by norm_num)).1

/-!  ## Query-normalisation lemmas (C6/C7)  -/

theorem lowerNat_idem (n : Nat) : lowerNat (lowerNat n) = lowerNat n := by
  unfold lowerNat
  split
  · split <;> omega
  · rfl

theorem lowerNat_valid (n : Nat) (h : n.isValidChar) :
    (lowerNat n).isValidChar := by
  unfold lowerNat
  split
  · next hc => exact Or.inl (by omega)
  · exact h

theorem toLowerChar_toNat (c : Char) :
    (toLowerChar c).toNat = lowerNat c.toNat := by
  unfold toLowerChar Char.ofNat
  rw [dif_pos (lowerNat_valid c.toNat c.valid)]
  rfl

theorem toLowerChar_idem (c : Char) :
    toLowerChar (toLowerChar c) = toLowerChar c := by
  show Char.ofNat (lowerNat (toLowerChar c).toNat) = toLowerChar c
  rw [toLowerChar_toNat, lowerNat_idem]
  rfl

theorem pyLower_folded (s : PyStr) :
    ∀ c ∈ pyLower s, toLowerChar c = c := by
  intro c hc
  obtain ⟨a, _, rfl⟩ := List.mem_map.mp hc
  exact toLowerChar_idem a

theorem pyLower_eq_self (s : PyStr) (h : ∀ c ∈ s, toLowerChar c = c) :
    pyLower s = s := by
  unfold pyLower
  rw [List.map_congr_left h]
  simp

theorem dropWhile_subset (p : Char → Bool) (l : PyStr) :
    l.dropWhile p ⊆ l :=
  (List.dropWhile_sublist p).subset

theorem pyStrip_subset (s : PyStr) : pyStrip s ⊆ s := by
  intro c hc
  simp only [pyStrip, List.mem_reverse] at hc
  have h1 := dropWhile_subset isPySpace (s.dropWhile isPySpace).reverse hc
  rw [List.mem_reverse] at h1
  exact dropWhile_subset isPySpace s h1

theorem pyRStrip_subset (chars : List Char) (s : PyStr) :
    pyRStrip chars s ⊆ s := by
  intro c hc
  simp only [pyRStrip, List.mem_reverse] at hc
  have h1 := dropWhile_subset (fun c => chars.contains c) s.reverse hc
  rw [List.mem_reverse] at h1
  exact h1

theorem removeAllGo_subset (pat : PyStr) :
    ∀ (fuel : Nat) (s : PyStr), removeAllGo pat fuel s ⊆ s := by
  intro fuel
  induction fuel with
  | zero => intro s; exact fun _ h => h
  | succ fuel ih =>
    intro s
    unfold removeAllGo
    split
    · exact fun c hc => List.drop_subset pat.length s (ih (s.drop pat.length) hc)
    · match s with
      | [] => exact fun _ h => h
      | c :: t =>
        intro x hx
        rcases List.mem_cons.mp hx with rfl | hx2
        · exact List.mem_cons_self x t
        · exact List.mem_cons_of_mem c (ih t hx2)

theorem removeAll_subset (pat s : PyStr) : removeAll pat s ⊆ s :=
  removeAllGo_subset pat s.length s

theorem patternsFold_subset (pats : List PyStr) :
    ∀ s : PyStr,
      pats.foldl
        (fun q pat => if containsSub pat q then pyStrip (removeAll pat q)
          else q) s ⊆ s := by
  induction pats with
  | nil => intro s; exact fun _ h => h
  | cons p ps ih =>
    intro s
    simp only [List.foldl_cons]
    intro c hc
    have h1 := ih (if containsSub p s then pyStrip (removeAll p s) else s) hc
    split at h1
    · exact removeAll_subset p s (pyStrip_subset _ h1)
    · exact h1

theorem pySplitAux_word_chars :
    ∀ (s acc : PyStr) (w : PyStr), w ∈ pySplitAux s acc →
      ∀ c ∈ w, c ∈ s ∨ c ∈ acc := by
  intro s
  induction s with
  | nil =>
    intro acc w hw c hc
    simp only [pySplitAux] at hw
    split at hw
    · cases hw
    · rcases List.mem_singleton.mp hw with rfl
      exact Or.inr (List.mem_reverse.mp hc)
  | cons c0 t ih =>
    intro acc w hw c hc
    simp only [pySplitAux] at hw
    split at hw
    · split at hw
      · rcases ih [] w hw c hc with h | h
        · exact Or.inl (List.mem_cons_of_mem c0 h)
        · cases h
      · rcases List.mem_cons.mp hw with rfl | hw2
        · exact Or.inr (List.mem_reverse.mp hc)
        · rcases ih [] w hw2 c hc with h | h
          · exact Or.inl (List.mem_cons_of_mem c0 h)
          · cases h
    · rcases ih (c0 :: acc) w hw c hc with h | h
      · exact Or.inl (List.mem_cons_of_mem c0 h)
      · rcases List.mem_cons.mp h with rfl | h2
        · exact Or.inl (List.mem_cons_self c t)
        · exact Or.inr h2

theorem pySplit_word_chars (s : PyStr) (w : PyStr) (hw : w ∈ pySplit s) :
    ∀ c ∈ w, c ∈ s := by
  intro c hc
  rcases pySplitAux_word_chars s [] w hw c hc with h | h
  · exact h
  · cases h

theorem pySplitAux_words :
    ∀ (s acc : PyStr), (∀ c ∈ acc, isPySpace c = false) →
      ∀ w ∈ pySplitAux s acc, w ≠ [] ∧ ∀ c ∈ w, isPySpace c = false := by
  intro s
  induction s with
  | nil =>
    intro acc hacc w hw
    simp only [pySplitAux] at hw
    split at hw
    · cases hw
    · next hne =>
      rcases List.mem_singleton.mp hw with rfl
      refine ⟨?_, ?_⟩
      · simp only [ne_eq, List.reverse_eq_nil_iff]
        intro h
        rw [h] at hne
        simp at hne
      · intro c hc
        exact hacc c (List.mem_reverse.mp hc)
  | cons c0 t ih =>
    intro acc hacc w hw
    by_cases hsp : isPySpace c0 = true
    · by_cases hae : acc.isEmpty = true
      · simp only [pySplitAux, hsp, hae, if_true] at hw
        exact ih [] (fun c hc => nomatch hc) w hw
      · simp [pySplitAux, hsp, hae] at hw
        rcases hw with rfl | hw2
        · refine ⟨?_, fun c hc => hacc c (List.mem_reverse.mp hc)⟩
          have hne : acc ≠ [] := fun h => hae (by simp [h])
          simpa using hne
        · exact ih [] (fun c hc => nomatch hc) w hw2
    · simp [pySplitAux, hsp] at hw
      refine ih (c0 :: acc) ?_ w hw
      intro c hc
      rcases List.mem_cons.mp hc with rfl | hc2
      · exact Bool.eq_false_iff.mpr hsp
      · exact hacc c hc2

theorem pySplit_words (s : PyStr) :
    ∀ w ∈ pySplit s, w ≠ [] ∧ ∀ c ∈ w, isPySpace c = false :=
  pySplitAux_words s [] (by intro c hc; cases hc)

theorem joinSpace_chars (ws : List PyStr) :
    ∀ c ∈ joinSpace ws, c = ' ' ∨ ∃ w ∈ ws, c ∈ w := by
  induction ws with
  | nil => intro c hc; cases hc
  | cons w ws ih =>
    intro c hc
    match ws, hc with
    | [], hc => exact Or.inr ⟨w, List.mem_cons_self w [], hc⟩
    | v :: ws2, hc =>
      rcases List.mem_append.mp hc with h | h
      · exact Or.inr ⟨w, List.mem_cons_self w _, h⟩
      · rcases List.mem_cons.mp h with rfl | h2
        · exact Or.inl rfl
        · rcases ih c h2 with h3 | ⟨u, hu, hcu⟩
          · exact Or.inl h3
          · exact Or.inr ⟨u, List.mem_cons_of_mem w hu, hcu⟩

theorem pySplitAux_push (w : PyStr) :
    ∀ (s acc : PyStr), (∀ c ∈ w, isPySpace c = false) →
      pySplitAux (w ++ s) acc = pySplitAux s (w.reverse ++ acc) := by
  induction w with
  | nil => intro s acc _; simp
  | cons c w' ih =>
    intro s acc hw
    have hc : isPySpace c = false := hw c (List.mem_cons_self c w')
    simp only [List.cons_append, pySplitAux, hc]
    rw [if_neg (by simp)]
    rw [show w'.append s = w' ++ s from rfl,
      ih s (c :: acc) (fun d hd => hw d (List.mem_cons_of_mem c hd))]
    simp

theorem split_join (ws : List PyStr)
    (h : ∀ w ∈ ws, w ≠ [] ∧ ∀ c ∈ w, isPySpace c = false) :
    pySplit (joinSpace ws) = ws := by
  induction ws with
  | nil => rfl
  | cons w ws ih =>
    cases ws with
    | nil =>
      obtain ⟨hne, hw⟩ := h w (List.mem_cons_self w [])
      show pySplitAux (joinSpace [w]) [] = [w]
      have : joinSpace [w] = w ++ [] := by simp [joinSpace]
      rw [this, pySplitAux_push w [] [] hw]
      simp [pySplitAux, hne]
    | cons v ws2 =>
      obtain ⟨hne, hw⟩ := h w (List.mem_cons_self w _)
      show pySplitAux (joinSpace (w :: v :: ws2)) [] = w :: v :: ws2
      have hj : joinSpace (w :: v :: ws2) = w ++ ' ' :: joinSpace (v :: ws2) :=
        rfl
      rw [hj, pySplitAux_push w (' ' :: joinSpace (v :: ws2)) [] hw]
      have hsp : isPySpace ' ' = true := by decide
      simp only [pySplitAux, hsp, if_true, List.append_nil]
      rw [if_neg (by simp [hne]), List.reverse_reverse]
      congr 1
      exact ih (fun u hu => h u (List.mem_cons_of_mem w hu))

theorem dropWhile_eq_self_of_head (p : Char → Bool) (s : PyStr)
    (h : ∀ c, s.head? = some c → p c = false) : s.dropWhile p = s := by
  cases s with
  | nil => rfl
  | cons c t =>
    rw [List.dropWhile_cons, if_neg]
    simp [h c rfl]

theorem pyStrip_eq_self (s : PyStr)
    (h1 : ∀ c, s.head? = some c → isPySpace c = false)
    (h2 : ∀ c, s.getLast? = some c → isPySpace c = false) :
    pyStrip s = s := by
  unfold pyStrip
  rw [dropWhile_eq_self_of_head isPySpace s h1]
  rw [dropWhile_eq_self_of_head isPySpace s.reverse
    (fun c hc => h2 c ((List.head?_reverse s) ▸ hc))]
  exact List.reverse_reverse s

theorem pyRStrip_eq_self (chars : List Char) (s : PyStr)
    (h : ∀ c, s.getLast? = some c → chars.contains c = false) :
    pyRStrip chars s = s := by
  unfold pyRStrip
  rw [dropWhile_eq_self_of_head (fun c => chars.contains c) s.reverse
    (fun c hc => h c ((List.head?_reverse s) ▸ hc))]
  exact List.reverse_reverse s

theorem joinSpace_head? (w : PyStr) (ws : List PyStr) (h : w ≠ []) :
    (joinSpace (w :: ws)).head? = w.head? := by
  cases ws with
  | nil => rfl
  | cons v ws2 =>
    show (w ++ ' ' :: joinSpace (v :: ws2)).head? = w.head?
    cases w with
    | nil => exact absurd rfl h
    | cons c t => rfl

theorem joinSpace_ne_nil (ws : List PyStr) (h : ∀ w ∈ ws, w ≠ [])
    (hne : ws ≠ []) : joinSpace ws ≠ [] := by
  cases ws with
  | nil => exact absurd rfl hne
  | cons w ws2 =>
    cases ws2 with
    | nil => simpa [joinSpace] using h w (List.mem_cons_self w [])
    | cons v ws3 =>
      show w ++ ' ' :: joinSpace (v :: ws3) ≠ []
      simp

theorem joinSpace_getLast? (ws : List PyStr) (h : ∀ w ∈ ws, w ≠ []) :
    ∀ c, (joinSpace ws).getLast? = some c → ∃ w ∈ ws, c ∈ w := by
  induction ws with
  | nil => intro c hc; cases hc
  | cons w ws ih =>
    cases ws with
    | nil =>
      intro c hc
      refine ⟨w, List.mem_cons_self w [], ?_⟩
      have hc2 : w.getLast? = some c := by simpa [joinSpace] using hc
      exact List.mem_of_mem_getLast? hc2
    | cons v ws2 =>
      intro c hc
      have hj : joinSpace (w :: v :: ws2) = w ++ ' ' :: joinSpace (v :: ws2) :=
        rfl
      rw [hj, List.getLast?_append_of_ne_nil _ (by simp)] at hc
      have hne2 : joinSpace (v :: ws2) ≠ [] :=
        joinSpace_ne_nil (v :: ws2)
          (fun u hu => h u (List.mem_cons_of_mem w hu)) (by simp)
      rw [show (' ' :: joinSpace (v :: ws2)) =
            [' '] ++ joinSpace (v :: ws2) from rfl,
          List.getLast?_append_of_ne_nil _ hne2] at hc
      obtain ⟨u, hu, hcu⟩ :=
        ih (fun u hu => h u (List.mem_cons_of_mem w hu)) c hc
      exact ⟨u, List.mem_cons_of_mem w hu, hcu⟩

theorem containsSub_of_isPrefixOf (pat s : PyStr)
    (h : pat.isPrefixOf s = true) : containsSub pat s = true := by
  cases s with
  | nil =>
    cases pat with
    | nil => rfl
    | cons c t => simp [List.isPrefixOf] at h
  | cons c t => simp [containsSub, h]

theorem containsSub_tail (pat : PyStr) (c : Char) (t : PyStr)
    (h : containsSub pat (c :: t) = false) : containsSub pat t = false := by
  have h2 : (pat.isPrefixOf (c :: t) || containsSub pat t) = false := h
  exact (Bool.or_eq_false_iff.mp h2).2

theorem removeAllGo_of_not_contains (pat : PyStr) :
    ∀ (fuel : Nat) (s : PyStr), containsSub pat s = false →
      removeAllGo pat fuel s = s := by
  intro fuel
  induction fuel with
  | zero => intro s _; rfl
  | succ fuel ih =>
    intro s h
    unfold removeAllGo
    split
    · next hpre =>
      rw [containsSub_of_isPrefixOf pat s hpre.1] at h
      cases h
    · cases s with
      | nil => rfl
      | cons c t =>
        show c :: removeAllGo pat fuel t = c :: t
        rw [ih t (containsSub_tail pat c t h)]

theorem removeAll_of_not_contains (pat s : PyStr)
    (h : containsSub pat s = false) : removeAll pat s = s :=
  removeAllGo_of_not_contains pat s.length s h

theorem patternsFold_id (pats : List PyStr) :
    ∀ s : PyStr, (∀ p ∈ pats, containsSub p s = false) →
      pats.foldl
        (fun q pat => if containsSub pat q then pyStrip (removeAll pat q)
          else q) s = s := by
  induction pats with
  | nil => intro s _; rfl
  | cons p ps ih =>
    intro s h
    simp only [List.foldl_cons]
    rw [if_neg (by simp [h p (List.mem_cons_self p ps)])]
    exact ih s (fun u hu => h u (List.mem_cons_of_mem p hu))

theorem reformulate_core_idem (q : PyStr)
    (hpat : ∀ pat ∈ QUESTION_PATTERNS,
      containsSub pat (reformulate_core q) = false)
    (hpunct : ∀ c, (reformulate_core q).getLast? = some c →
      TRAILING_PUNCT.contains c = false) :
    reformulate_core (reformulate_core q) = reformulate_core q := by
  have hwords : ∀ w ∈ (pySplit (QUESTION_PATTERNS.foldl
      (fun q pat => if containsSub pat q then pyStrip (removeAll pat q)
        else q)
      (pyRStrip TRAILING_PUNCT (pyStrip (pyLower q))))).filter keepToken,
      w ≠ [] ∧ ∀ c ∈ w, isPySpace c = false :=
    fun w hw => pySplit_words _ w (List.mem_of_mem_filter hw)
  set F := (pySplit (QUESTION_PATTERNS.foldl
    (fun q pat => if containsSub pat q then pyStrip (removeAll pat q) else q)
    (pyRStrip TRAILING_PUNCT (pyStrip (pyLower q))))).filter keepToken with hF
  have hstrip : pyStrip (joinSpace F) = joinSpace F := by
    apply pyStrip_eq_self
    · intro c hc
      cases hFc : F with
      | nil => rw [hFc] at hc; cases hc
      | cons w ws =>
        rw [hFc] at hc
        rw [joinSpace_head? w ws ((hwords w (hFc ▸ List.mem_cons_self w ws)).1)]
          at hc
        have hcw : c ∈ w := List.mem_of_mem_head? hc
        exact (hwords w (hFc ▸ List.mem_cons_self w ws)).2 c hcw
    · intro c hc
      obtain ⟨w, hw, hcw⟩ :=
        joinSpace_getLast? F (fun w hw => (hwords w hw).1) c hc
      exact (hwords w hw).2 c hcw
  have hr_eq : reformulate_core q = joinSpace F := by
    simp only [reformulate_core]
    rw [← hF]
    exact hstrip
  have hfold : ∀ c ∈ joinSpace F, toLowerChar c = c := by
    intro c hc
    rcases joinSpace_chars F c hc with rfl | ⟨w, hw, hcw⟩
    · decide
    · have h1 := pySplit_word_chars _ w (List.mem_of_mem_filter hw) c hcw
      have h2 := patternsFold_subset QUESTION_PATTERNS
        (pyRStrip TRAILING_PUNCT (pyStrip (pyLower q))) h1
      have h3 := pyStrip_subset (pyLower q)
        (pyRStrip_subset TRAILING_PUNCT (pyStrip (pyLower q)) h2)
      exact pyLower_folded q c h3
  rw [hr_eq] at hpat hpunct ⊢
  simp only [reformulate_core]
  rw [pyLower_eq_self (joinSpace F) hfold, hstrip,
    pyRStrip_eq_self TRAILING_PUNCT (joinSpace F) hpunct,
    patternsFold_id QUESTION_PATTERNS (joinSpace F) hpat,
    split_join F hwords,
    List.filter_eq_self.mpr (fun w hw => List.of_mem_filter hw),
    hstrip]

set_option maxRecDepth 4096 in
/-- C7 counterexample: normalization is not idempotent.  For
`"a. le"` the first pass keeps the token `"a."` (dropping the stopword
`"le"`), and a second pass strips the now-trailing dot:
`reformulate_query("a. le") = "a."` but `reformulate_query("a.") = "a"`. -/
theorem claim_C7_counterexample :
    reformulate_query (reformulate_query (("a. le").data)) ≠
      reformulate_query (("a. le").data) := by decide

/-- C7 (amended): `reformulate_query` is idempotent on every query whose
normalized form ends in no trailing `?`/`!`/`.` and contains no
interrogative pattern (both can be re-exposed when stopword elision brings
tokens together or leaves trailing punctuation last); it is also idempotent
whenever the empty-result fallback fires. -/
theorem claim_C7_amended (q : PyStr) :
    (reformulate_core q = [] →
      reformulate_query (reformulate_query q) = reformulate_query q) ∧
    ((∀ pat ∈ QUESTION_PATTERNS,
        containsSub pat (reformulate_query q) = false) →
      (∀ c, (reformulate_query q).getLast? = some c →
        TRAILING_PUNCT.contains c = false) →
      reformulate_query (reformulate_query q) = reformulate_query q) := by
  constructor
  · intro h0
    have h1 : reformulate_query q = q := by simp [reformulate_query, h0]
    rw [h1]
    exact h1
  · intro hpat hpunct
    by_cases h0 : reformulate_core q = []
    · have h1 : reformulate_query q = q := by simp [reformulate_query, h0]
      rw [h1]
      exact h1
    · have h1 : reformulate_query q = reformulate_core q := by
        simp [reformulate_query, List.isEmpty_iff, h0]
      rw [h1] at hpat hpunct ⊢
      have h2 := reformulate_core_idem q hpat hpunct
      simp [reformulate_query, h2, List.isEmpty_iff, h0]

/-- C7 witness: a real interrogative query whose normalized form
(`"taille"`) satisfies both side conditions, so a second normalization
changes nothing. -/
theorem claim_C7_witness :
    reformulate_query (reformulate_query (("quelle est la taille").data)) =
      reformulate_query (("quelle est la taille").data) :=
  (claim_C7_amended (("quelle est la taille").data)).2 (by decide)
    (by
      intro c hc
      rw [show (reformulate_query
          (("quelle est la taille").data)).getLast? = some 'e' from by
        decide] at hc
      cases hc
      decide)
